import Mathlib

/-!
Verification of the realtime voice-assistant gateway (session broker).

The development shallowly embeds the broker's core components:
the audio framer (`chunkBuffer`, `looksLikePcm16`, `toBase64PcmChunks`),
base64 encoding as performed by the runtime when serializing a buffer,
the retrieval post-processing (`searchVectorDB`, `formatContextForLLM`),
the tool executor (`handleToolCall`), the instruction-hash deduplication
(`maybeUpdateInstructions` with the DJB2-style 32-bit hash), the tool-call
argument coalescing (`deltaStep`/`doneStep`) and the upstream-event fan-out
(`deliver`).  Byte buffers are lists of naturals below 256; machine 32-bit
arithmetic in the hash is modelled with explicit reduction modulo 2 ^ 32.
Definitions come first, all theorems follow.
-/

/-- Source `AudioService.chunkBuffer` loop: starting at offset 0, repeatedly
slice `size` bytes until the buffer is exhausted.  The source is only invoked
with `size = 12288`; a zero `size` (which would loop forever in the source)
is mapped to the empty list so the model stays total. -/
def chunksGo (size : Nat) (l : List Nat) : List (List Nat) :=
  if h : size = 0 ∨ l.length = 0 then []
  else l.take size :: chunksGo size (l.drop size)
termination_by l.length
decreasing_by
  simp only [List.length_drop]
  omega

/-- Source `AudioService.chunkBuffer(buf, size)`: empty (or non-buffer) input
yields the empty list, otherwise the slicing loop runs. -/
def chunkBuffer (buf : List Nat) (size : Nat) : List (List Nat) :=
  if buf.length = 0 then [] else chunksGo size buf

/-- Source `AudioService.looksLikePcm16(buf)`: the length is at least 2 and
a multiple of 2 (PCM16 sample alignment). -/
def looksLikePcm16 (buf : List Nat) : Bool :=
  decide (2 ≤ buf.length) && decide (buf.length % 2 = 0)

/-- The base64 alphabet used by the runtime when serializing a buffer. -/
def base64Chars : List Char :=
  "ABCDEFGHIJKLMNOPQRSTUVWXYZabcdefghijklmnopqrstuvwxyz0123456789+/".toList

/-- Character for a 6-bit group. -/
def sextetToChar (n : Nat) : Char := base64Chars.getD n '='

/-- Index of a base64 character in the alphabet. -/
def charToSextet (c : Char) : Nat := base64Chars.indexOf c

/-- RFC 4648 base64 encoding with padding, as produced by the runtime when a
byte buffer is serialized to a base64 string. -/
def encodeBase64 : List Nat → List Char
  | [] => []
  | [a] => [sextetToChar (a / 4), sextetToChar (a % 4 * 16), '=', '=']
  | [a, b] => [sextetToChar (a / 4), sextetToChar (a % 4 * 16 + b / 16),
      sextetToChar (b % 16 * 4), '=']
  | a :: b :: c :: rest =>
      sextetToChar (a / 4) :: sextetToChar (a % 4 * 16 + b / 16) ::
      sextetToChar (b % 16 * 4 + c / 64) :: sextetToChar (c % 64) ::
      encodeBase64 rest

/-- Standard base64 decoding of a well-formed padded base64 string (the shape
`encodeBase64` produces). -/
def decodeBase64 : List Char → List Nat
  | p :: q :: r :: s :: rest =>
      if r = '=' then [charToSextet p * 4 + charToSextet q / 16]
      else if s = '=' then
        [charToSextet p * 4 + charToSextet q / 16,
         charToSextet q % 16 * 16 + charToSextet r / 4]
      else
        (charToSextet p * 4 + charToSextet q / 16) ::
        (charToSextet q % 16 * 16 + charToSextet r / 4) ::
        (charToSextet r % 4 * 64 + charToSextet s) :: decodeBase64 rest
  | _ => []

/-- Source `AudioService.toBase64PcmChunks(input, chunkBytes)`: reject a
buffer that fails `looksLikePcm16` with the `Invalid PCM16 buffer.` error,
otherwise chunk and base64-encode each chunk independently.  (The source
guard `Buffer.isBuffer` is discharged by typing.) -/
def toBase64PcmChunks (input : List Nat) (chunkBytes : Nat) :
    Except String (List (List Char)) :=
  if looksLikePcm16 input then
    Except.ok ((chunkBuffer input chunkBytes).map encodeBase64)
  else
    Except.error "Invalid PCM16 buffer."

/-! ### Retrieval client (`RAGService`) post-processing

`semanticSearch` performs the network call; its normalized snippet list is
the oracle input `raw` below.  `searchVectorDB` post-filters by the numeric
threshold and sorts by score descending; scores are modelled as rationals. -/

/-- A normalized retrieval snippet, as produced by `semanticSearch`. -/
structure Snippet where
  content : String
  score : ℚ
  source : String
  file_id : Option String
  filename : Option String

/-- One step of the stable descending insertion modelling the stable source
comparator `sort((a, b) => b.score - a.score)`. -/
def insertDesc (x : Snippet) : List Snippet → List Snippet
  | [] => [x]
  | y :: ys => if y.score < x.score then x :: y :: ys else y :: insertDesc x ys

/-- Stable sort by score descending. -/
def sortByScoreDesc (rs : List Snippet) : List Snippet := rs.foldr insertDesc []

/-- Source `RAGService.searchVectorDB` post-processing: keep the snippets
whose score reaches the threshold, then sort by score descending. -/
def searchVectorDB (raw : List Snippet) (threshold : ℚ) : List Snippet :=
  sortByScoreDesc (raw.filter (fun r => threshold ≤ r.score))

/-- Source string-falsy fallback `a || b` on an optional string. -/
def jsOr (a : Option String) (b : String) : String :=
  match a with
  | some s => if s = "" then b else s
  | none => b

/-- Source `results.map(r => r.metadata?.file_id || r.metadata?.source ||
"vector_store")`. -/
def sourceName (r : Snippet) : String :=
  jsOr r.file_id (if r.source = "" then "vector_store" else r.source)

/-- One entry of the source `RAGService.formatContextForLLM` default format:
`[출처: <file_id ?? source>]` then a newline and the content. -/
def contextLine (r : Snippet) : String :=
  "[출처: " ++ r.file_id.getD r.source ++ "]\n" ++ r.content

/-- Source `RAGService.formatContextForLLM` (default format): entries joined
by a blank line. -/
def formatContextForLLM (rs : List Snippet) : String :=
  String.intercalate "\n\n" (rs.map contextLine)

/-! ### Tool executor (`LLMService._handleToolCall`) -/

/-- Source `this.minToolIntervalMs`. -/
def minToolIntervalMs : Nat := 1200

/-- Standard retry prompt sent on a low-confidence retrieval. -/
def lowConfRetryMessage : String :=
  "관련 문서를 찾지 못했습니다. 질문을 다시 말씀해주세요."

/-- Escalation message advising to contact a human operator. -/
def lowConfEscalationMessage : String :=
  "관련 문서를 계속 찾지 못하고 있습니다. 내용을 요약해서 담당자에게 문의해주세요. 더 정확한 도움을 받으실 수 있습니다."

/-- Per-session executor state: `lastToolAt.get(sessionId) || 0` and
`lowConfidenceCount.get(sessionId) || 0`. -/
structure ToolState where
  lastToolAt : Nat
  lowConfidenceCount : Nat

/-- Parsed `rag_search` arguments; `none` models an absent or non-conforming
JSON field (non-string `query`/`mode`, non-integer `topK`, non-number
`threshold`). -/
structure ToolArgs where
  query : Option String
  mode : Option String
  topK : Option Int
  threshold : Option ℚ

/-- The JSON object sent as `tool.output` payload; `none` models an absent
field. -/
structure ToolOutput where
  skipped : Bool
  reason : Option String
  error : Option String
  context : Option String
  sources : Option (List String)
  count : Option Nat
  mode : Option String
  lowConfidence : Bool
  lowConfidenceCount : Option Nat

/-- `tool.output` payload of the rate-limit branch. -/
def rateLimitedOutput : ToolOutput :=
  ⟨true, some "rate_limited", none, none, none, none, none, false, none⟩

/-- `tool.output` payload of the unknown-tool branch. -/
def unknownToolOutput : ToolOutput :=
  ⟨false, none, some "unknown tool", none, none, none, none, false, none⟩

/-- `tool.output` payload of the empty-query branch. -/
def emptyQueryOutput : ToolOutput :=
  ⟨false, none, some "empty query", none, none, none, none, false, none⟩

/-- `tool.output` payload of the low-confidence branch. -/
def lowConfOutput (message mode : String) (newCount : Nat) : ToolOutput :=
  ⟨false, none, none, some message, some [], some 0, some mode, true, some newCount⟩

/-- `tool.output` payload of the confident branch. -/
def successOutput (context : String) (sources : List String) (count : Nat)
    (mode : String) : ToolOutput :=
  ⟨false, none, none, some context, some sources, some count, some mode, false, none⟩

/-- `results[0]?.score || 0`. -/
def topScore : List Snippet → ℚ
  | [] => 0
  | r :: _ => r.score

/-- Drop leading whitespace characters. -/
def dropLeadingWs : List Char → List Char
  | [] => []
  | c :: cs => if c.isWhitespace then dropLeadingWs cs else c :: cs

/-- Source `String(args.query || "").trim()`: strip whitespace from both
ends. -/
def jsTrim (s : String) : String :=
  String.mk ((dropLeadingWs (dropLeadingWs s.data).reverse).reverse)

/-- Source `mode = args.mode === "provisional" ? "provisional" : "final"`. -/
def toolMode (args : ToolArgs) : String :=
  if args.mode = some "provisional" then "provisional" else "final"

/-- Source `threshold = typeof args.threshold === "number" ? args.threshold
: 0.3`. -/
def toolThreshold (args : ToolArgs) : ℚ :=
  args.threshold.getD (3 / 10)

/-- The threshold handed to `searchVectorDB`: `max(threshold, 0.4)` in
provisional mode, `threshold` in final mode. -/
def effectiveThreshold (args : ToolArgs) : ℚ :=
  if toolMode args = "provisional" then max (toolThreshold args) (2 / 5)
  else toolThreshold args

/-- The snippet list `_handleToolCall` receives back from
`searchVectorDB(query, opt)`. -/
def toolResults (args : ToolArgs) (raw : List Snippet) : List Snippet :=
  searchVectorDB raw (effectiveThreshold args)

/-- Source low-confidence test: `results.length === 0 ||
(results[0]?.score || 0) < threshold`. -/
def isLowConfidence (args : ToolArgs) (raw : List Snippet) : Prop :=
  (toolResults args raw).length = 0 ∨
    topScore (toolResults args raw) < toolThreshold args

instance (args : ToolArgs) (raw : List Snippet) :
    Decidable (isLowConfidence args raw) := by
  unfold isLowConfidence
  infer_instance

/-- Source `LLMService._handleToolCall(ws, sessionId, name, callId, args)`
at dispatch time `now`, with the snippet list `raw` the semantic-search
oracle would return for the query (its `topK`/`maxChars` options only shape
the oracle call).  Returns the updated per-session state, the emitted
`tool.output` payload, and whether retrieval executed.  The source sets
`lastToolAt = Date.now()` right after the spacing check, before the
tool-name and query validation, so every non-skipped branch carries
`lastToolAt = now`. -/
def handleToolCall (st : ToolState) (now : Nat) (name : String)
    (args : ToolArgs) (raw : List Snippet) : ToolState × ToolOutput × Bool :=
  if now - st.lastToolAt < minToolIntervalMs then
    (st, rateLimitedOutput, false)
  else if name ≠ "rag_search" then
    (⟨now, st.lowConfidenceCount⟩, unknownToolOutput, false)
  else if jsTrim (args.query.getD "") = "" then
    (⟨now, st.lowConfidenceCount⟩, emptyQueryOutput, false)
  else if isLowConfidence args raw then
    (⟨now, st.lowConfidenceCount + 1⟩,
     lowConfOutput
       (if 3 ≤ st.lowConfidenceCount + 1 then lowConfEscalationMessage
        else lowConfRetryMessage)
       (toolMode args) (st.lowConfidenceCount + 1),
     true)
  else
    (⟨now, 0⟩,
     successOutput (formatContextForLLM (toolResults args raw))
       ((toolResults args raw).map sourceName) (toolResults args raw).length
       (toolMode args),
     true)

/-- Sequential tool-call dispatches in one session: each entry is the
dispatch time, tool name, arguments and retrieval oracle. -/
def runToolCalls (st : ToolState) :
    List (Nat × String × ToolArgs × List Snippet) → ToolState × List (ToolOutput × Bool)
  | [] => (st, [])
  | (t, n, a, r) :: rest =>
      let s := handleToolCall st t n a r
      let res0 := runToolCalls s.1 rest
      (res0.1, s.2 :: res0.2)

/-! ### Instruction-hash deduplication (`LLMService._maybeUpdateInstructions`)

Instruction strings are modelled as their UTF-16 code-unit sequences, on
which the source method `charCodeAt` operates; the 32-bit bitwise
arithmetic is modelled with explicit reduction modulo 2 ^ 32. -/

/-- One step of the source `_hash` loop: `h = (h * 33) ^ str.charCodeAt(--i)`
on 32-bit values. -/
def hashStep (h c : Nat) : Nat := (h * 33 % 4294967296) ^^^ c

/-- Source `_hash` numeric accumulator: starts at 5381 and consumes the
code units from the last to the first; `h >>> 0` is the identity on the
32-bit value tracked here. -/
def jsHashNum (s : List Nat) : Nat := s.reverse.foldl hashStep 5381

/-- Digit character for base-36 (`0-9a-z`), as in `Number.toString(36)`. -/
def digitChar36 (d : Nat) : Char :=
  if d < 10 then Char.ofNat (48 + d) else Char.ofNat (87 + d)

/-- Base-36 digit expansion, most significant first, as in
`Number.toString(36)`. -/
def toBase36 (n : Nat) : List Char :=
  if h : n < 36 then [digitChar36 n]
  else toBase36 (n / 36) ++ [digitChar36 (n % 36)]
termination_by n
decreasing_by
  omega

/-- Source `_hash(str)`: the 32-bit accumulator rendered in base 36. -/
def jsHash (s : List Nat) : String := String.mk (toBase36 (jsHashNum s))

/-- The upstream protocol frames the claims observe. -/
inductive UpstreamFrame where
  | sessionUpdate (instructions : List Nat)
  | inputAudioAppend (audio : List Char)
  | inputAudioCommit
  | responseCreate (modalities : List String)
deriving DecidableEq

/-- Source `LLMService._maybeUpdateInstructions(ws, sessionId, newInstr)`:
hash the new instructions; on a changed hash emit `session.update` and
record the hash, otherwise do nothing.  Input is the current
`lastInstrHash` of the session (`none` when the meta entry is absent);
output is the new `lastInstrHash` and the list of emitted frames. -/
def maybeUpdateInstructions (lastInstrHash : Option String) (newInstr : List Nat) :
    Option String × List UpstreamFrame :=
  if lastInstrHash = some (jsHash newInstr) then (lastInstrHash, [])
  else (some (jsHash newInstr), [UpstreamFrame.sessionUpdate newInstr])

/-- Two consecutive `_maybeUpdateInstructions` calls with the same
instruction string: resulting hash state and concatenated frame emissions. -/
def maybeUpdateInstructionsTwice (lastInstrHash : Option String) (x : List Nat) :
    Option String × List UpstreamFrame :=
  ((maybeUpdateInstructions (maybeUpdateInstructions lastInstrHash x).1 x).1,
   (maybeUpdateInstructions lastInstrHash x).2 ++
     (maybeUpdateInstructions (maybeUpdateInstructions lastInstrHash x).1 x).2)

/-! ### Upstream-event fan-out (`Socket._setupLLMForwarding`)

Each client connection registers one forwarder per upstream event; `deliver
sid e` is the envelope the forwarders registered for session `sid` write to
their client socket when the feed fires event `e` (with the socket open),
`none` when nothing is sent. -/

/-- Events of the `LLMService` feed subscribed by `_setupLLMForwarding`. -/
inductive LlmEvent where
  | text_delta (sessionId : String) (output_index : Nat) (delta : String)
  | text_done (sessionId : String) (output_index : Nat)
  | audio_transcript_delta (sessionId : String) (output_index : Nat) (delta : String)
  | audio_transcript_done (sessionId : String) (output_index : Nat)
  | audio_delta (sessionId : String) (output_index : Nat) (delta : String)
  | audio_done (sessionId : String) (output_index : Nat)
  | error (sessionId : String) (code : Option Nat) (message : Option String)
  | closed (sessionId : String) (code : Option Nat) (reason : Option String)
deriving DecidableEq

/-- The session the event was emitted for. -/
def LlmEvent.sid : LlmEvent → String
  | .text_delta s _ _ => s
  | .text_done s _ => s
  | .audio_transcript_delta s _ _ => s
  | .audio_transcript_done s _ => s
  | .audio_delta s _ _ => s
  | .audio_done s _ => s
  | .error s _ _ => s
  | .closed s _ _ => s

/-- Whether the event is handled by the `onErr`/`onClosed` handlers rather
than a `fwd`-built one. -/
def LlmEvent.isErrOrClosed : LlmEvent → Bool
  | .error _ _ _ => true
  | .closed _ _ _ => true
  | _ => false

/-- Envelopes written to the client socket: `openai:conversation` payloads
and `openai:error` payloads. -/
inductive Envelope where
  | conversation (msgType : String) (output_index : Nat) (delta : Option String)
  | errorEnvelope (code : Nat) (message : String)
deriving DecidableEq

/-- Source `_setupLLMForwarding(sessionId, ws)`: the `fwd`-built handlers
drop events whose `data.sessionId` differs from the registered session;
the `onErr` and `onClosed` handlers call `_sendError` directly (`code ??
1011`, `message ?? "Upstream error"`, `reason || "Upstream closed"`). -/
def deliver (sid : String) (e : LlmEvent) : Option Envelope :=
  match e with
  | .text_delta s oi d =>
      if s = sid then some (.conversation "response.text.delta" oi (some d)) else none
  | .text_done s oi =>
      if s = sid then some (.conversation "response.text.done" oi none) else none
  | .audio_transcript_delta s oi d =>
      if s = sid then some (.conversation "response.audio_transcript.delta" oi (some d))
      else none
  | .audio_transcript_done s oi =>
      if s = sid then some (.conversation "response.audio_transcript.done" oi none)
      else none
  | .audio_delta s oi d =>
      if s = sid then some (.conversation "response.audio.delta" oi (some d)) else none
  | .audio_done s oi =>
      if s = sid then some (.conversation "response.audio.done" oi none) else none
  | .error _ code message =>
      some (.errorEnvelope (code.getD 1011) (message.getD "Upstream error"))
  | .closed _ code reason =>
      some (.errorEnvelope (code.getD 1011)
        (match reason with
         | some r => if r = "" then "Upstream closed" else r
         | none => "Upstream closed"))

/-! ### Broker audio turn (`Socket._bind` binary handler and
`_handleConversation` for `input_audio_buffer.end`) -/

/-- Source binary-message handler: run the frame through
`toBase64PcmChunks` and forward one `input_audio_buffer.append` per chunk;
on failure send an `openai:error` envelope with code 400 and no upstream
frame. -/
def handleBinaryFrame (b : List Nat) : Except Envelope (List UpstreamFrame) :=
  match toBase64PcmChunks b 12288 with
  | Except.ok chunks => Except.ok (chunks.map UpstreamFrame.inputAudioAppend)
  | Except.error e =>
      Except.error (Envelope.errorEnvelope 400 ("Invalid binary audio: " ++ e))

/-- Source `input_audio_buffer.end` handling:
`commitAudioAndCreateResponse(sessionId, {modalities: ["text", "audio"]})`
emits a commit then a `response.create`. -/
def handleAudioEnd : List UpstreamFrame :=
  [UpstreamFrame.inputAudioCommit, UpstreamFrame.responseCreate ["text", "audio"]]

/-- The upstream frames produced by a client binary frame `b` followed by
`{channel:"openai:conversation", type:"input_audio_buffer.end"}`. -/
def audioTurnUpstreamFrames (b : List Nat) : List UpstreamFrame :=
  (match handleBinaryFrame b with
   | Except.ok fs => fs
   | Except.error _ => []) ++ handleAudioEnd

/-- Number of `input_audio_buffer.append` frames in a frame list. -/
def countAppends (fs : List UpstreamFrame) : Nat :=
  (fs.filter (fun f =>
    match f with
    | UpstreamFrame.inputAudioAppend _ => true
    | _ => false)).length

/-! ### Tool-call argument coalescing (`LLMService._wireServerEvents`)

The per-session `fcalls` map (call-id → pending entry) is modelled as an
association list with unique keys; argument text is the code-unit list of
the accumulated string.  `JSON.parse` is abstracted as a partial parser
into an arbitrary value type, with `none` modelling a parse throw. -/

/-- A pending tool call: the name captured from the first delta and the
accumulated argument text. -/
structure PendingCall where
  name : Option String
  args : List Char
deriving DecidableEq

/-- `Map.get(callId)` on the association list. -/
def lookupCall : List (String × PendingCall) → String → Option PendingCall
  | [], _ => none
  | (k, v) :: rest, c => if k = c then some v else lookupCall rest c

/-- `Map.set(callId, v)` on the association list. -/
def setCall : List (String × PendingCall) → String → PendingCall →
    List (String × PendingCall)
  | [], c, v => [(c, v)]
  | (k, w) :: rest, c, v =>
      if k = c then (c, v) :: rest else (k, w) :: setCall rest c v

/-- `Map.delete(callId)` on the association list. -/
def eraseCall : List (String × PendingCall) → String → List (String × PendingCall)
  | [], _ => []
  | (k, w) :: rest, c => if k = c then rest else (k, w) :: eraseCall rest c

/-- Source handler of `response.function_call.arguments.delta`: fetch the
pending entry (creating `{name: data.name, args: ""}` when absent), append
`data.delta || ""` and store it back. -/
def deltaStep (calls : List (String × PendingCall)) (callId : String)
    (name : Option String) (delta : Option (List Char)) :
    List (String × PendingCall) :=
  setCall calls callId
    ⟨((lookupCall calls callId).getD ⟨name, []⟩).name,
     ((lookupCall calls callId).getD ⟨name, []⟩).args ++ delta.getD []⟩

/-- Source `args = info.args ? JSON.parse(info.args) : {}` under
`try ... catch {}`: an empty accumulation yields the empty object and so
does a parse failure. -/
def parseArgs {J : Type} (emptyObj : J) (parse : List Char → Option J)
    (s : List Char) : J :=
  if s = [] then emptyObj else (parse s).getD emptyObj

/-- Source handler of `response.function_call.arguments.done`: with no
pending entry nothing happens; otherwise the entry is removed and the tool
dispatched with the parsed arguments (second component `some (name,
parsedArgs)`). -/
def doneStep {J : Type} (emptyObj : J) (parse : List Char → Option J)
    (calls : List (String × PendingCall)) (callId : String) :
    List (String × PendingCall) × Option (Option String × J) :=
  match lookupCall calls callId with
  | none => (calls, none)
  | some info =>
      (eraseCall calls callId, some (info.name, parseArgs emptyObj parse info.args))

/-- A stream of argument deltas for one call-id applied in arrival order. -/
def runDeltas (calls : List (String × PendingCall)) (callId : String)
    (name : Option String) : List (Option (List Char)) →
    List (String × PendingCall)
  | [] => calls
  | d :: ds => runDeltas (deltaStep calls callId name d) callId name ds

/-- The concatenation of a delta stream (`data.delta || ""` per event). -/
def deltaText (ds : List (Option (List Char))) : List Char :=
  (ds.map (fun d => d.getD [])).flatten

theorem charToSextet_sextetToChar : ∀ n, n < 64 → charToSextet (sextetToChar n) = n := by
  decide

theorem sextetToChar_ne_eq : ∀ n, n < 64 → sextetToChar n ≠ '=' := by
  decide

/-- Decoding inverts encoding on byte lists. -/
theorem decodeBase64_encodeBase64 :
    ∀ l : List Nat, (∀ x ∈ l, x < 256) → decodeBase64 (encodeBase64 l) = l
  | [], _ => rfl
  | [a], h => by
      have ha : a < 256 := h a (by simp)
      have h1 : a / 4 < 64 := by omega
      have h2 : a % 4 * 16 < 64 := by omega
      simp only [encodeBase64, decodeBase64, if_true,
        charToSextet_sextetToChar _ h1, charToSextet_sextetToChar _ h2,
        List.cons.injEq, and_true]
      omega
  | [a, b], h => by
      have ha : a < 256 := h a (by simp)
      have hb : b < 256 := h b (by simp)
      have h1 : a / 4 < 64 := by omega
      have h2 : a % 4 * 16 + b / 16 < 64 := by omega
      have h3 : b % 16 * 4 < 64 := by omega
      simp only [encodeBase64, decodeBase64, if_true, if_neg (sextetToChar_ne_eq _ h3),
        charToSextet_sextetToChar _ h1, charToSextet_sextetToChar _ h2,
        charToSextet_sextetToChar _ h3, List.cons.injEq, and_true]
      exact ⟨by omega, by omega⟩
  | a :: b :: c :: d :: rest, h => by
      have ha : a < 256 := h a (by simp)
      have hb : b < 256 := h b (by simp)
      have hc : c < 256 := h c (by simp)
      have h1 : a / 4 < 64 := by omega
      have h2 : a % 4 * 16 + b / 16 < 64 := by omega
      have h3 : b % 16 * 4 + c / 64 < 64 := by omega
      have h4 : c % 64 < 64 := by omega
      have ih := decodeBase64_encodeBase64 (d :: rest)
        (fun x hx => h x (by simp only [List.mem_cons] at hx ⊢; tauto))
      simp only [encodeBase64, decodeBase64, if_neg (sextetToChar_ne_eq _ h3),
        if_neg (sextetToChar_ne_eq _ h4),
        charToSextet_sextetToChar _ h1, charToSextet_sextetToChar _ h2,
        charToSextet_sextetToChar _ h3, charToSextet_sextetToChar _ h4,
        List.cons.injEq]
      exact ⟨by omega, by omega, by omega, ih⟩
  | [a, b, c], h => by
      have ha : a < 256 := h a (by simp)
      have hb : b < 256 := h b (by simp)
      have hc : c < 256 := h c (by simp)
      have h1 : a / 4 < 64 := by omega
      have h2 : a % 4 * 16 + b / 16 < 64 := by omega
      have h3 : b % 16 * 4 + c / 64 < 64 := by omega
      have h4 : c % 64 < 64 := by omega
      simp only [encodeBase64, decodeBase64, if_neg (sextetToChar_ne_eq _ h3),
        if_neg (sextetToChar_ne_eq _ h4),
        charToSextet_sextetToChar _ h1, charToSextet_sextetToChar _ h2,
        charToSextet_sextetToChar _ h3, charToSextet_sextetToChar _ h4,
        List.cons.injEq, and_true]
      exact ⟨by omega, by omega, by omega⟩

/-- The slicer returns the empty list exactly on zero size or empty input. -/
theorem chunksGo_eq_nil (size : Nat) (l : List Nat) :
    chunksGo size l = [] ↔ size = 0 ∨ l.length = 0 := by
  rw [chunksGo]
  split
  · simp_all
  · simp_all

/-- Concatenating the slices restores the buffer. -/
theorem chunksGo_join (size : Nat) (hs : 0 < size) (l : List Nat) :
    (chunksGo size l).flatten = l := by
  rw [chunksGo]
  split
  · rename_i hcond
    rcases hcond with hcond | hcond
    · omega
    · simp [List.length_eq_zero.mp hcond]
  · rename_i hcond
    have ih := chunksGo_join size hs (l.drop size)
    simp [ih]
termination_by l.length
decreasing_by
  simp only [List.length_drop]
  omega

/-- Every slice except the last has exactly `size` bytes. -/
theorem chunksGo_getD_length (size : Nat) (hs : 0 < size) (l : List Nat) (i : Nat)
    (hi : i + 1 < (chunksGo size l).length) :
    ((chunksGo size l).getD i []).length = size := by
  by_cases hcond : size = 0 ∨ l.length = 0
  · rw [chunksGo, dif_pos hcond] at hi
    simp at hi
  · rw [chunksGo, dif_neg hcond] at hi ⊢
    cases i with
    | zero =>
        have hne : (chunksGo size (l.drop size)).length ≠ 0 := by
          simp only [List.length_cons] at hi
          omega
        have hlen : ¬ (size = 0 ∨ (l.drop size).length = 0) := by
          intro hor
          exact hne (by rw [(chunksGo_eq_nil size (l.drop size)).mpr hor]; rfl)
        simp only [List.length_drop] at hlen
        simp only [List.getD_cons_zero, List.length_take]
        omega
    | succ j =>
        have ih := chunksGo_getD_length size hs (l.drop size) j
          (by simpa using hi)
        simpa using ih
termination_by l.length
decreasing_by
  simp only [List.length_drop]
  omega

/-- Every byte of every slice comes from the buffer. -/
theorem chunksGo_subset (size : Nat) (l : List Nat) :
    ∀ c ∈ chunksGo size l, ∀ x ∈ c, x ∈ l := by
  rw [chunksGo]
  split
  · simp
  · rename_i hcond
    intro c hc x hx
    rcases List.mem_cons.mp hc with hc | hc
    · exact List.take_subset size l (hc ▸ hx)
    · exact List.drop_subset size l (chunksGo_subset size (l.drop size) c hc x hx)
termination_by l.length
decreasing_by
  simp only [List.length_drop]
  omega

/-- `getD` commutes with mapping the encoder, since the encoder maps the
default `[]` to `[]`. -/
theorem getD_map_encodeBase64 (l : List (List Nat)) (i : Nat) :
    (l.map encodeBase64).getD i [] = encodeBase64 (l.getD i []) := by
  induction l generalizing i with
  | nil => cases i <;> rfl
  | cons c cs ih =>
      cases i with
      | zero => rfl
      | succ j => simpa using ih j

/-- Claim C2: for every byte buffer `b` with `0 < |b|` and `|b| mod 2 = 0`,
base64-decoding each chunk produced by `toBase64PcmChunks b 12288` and
concatenating the results in order yields exactly `b`, and every chunk except
possibly the last encodes exactly 12288 bytes. -/
theorem c2_toBase64PcmChunks_roundtrip (b : List Nat) (hpos : 0 < b.length)
    (heven : b.length % 2 = 0) (hbytes : ∀ x ∈ b, x < 256) :
    ∃ chunks : List (List Char),
      toBase64PcmChunks b 12288 = Except.ok chunks ∧
      (chunks.map decodeBase64).flatten = b ∧
      ∀ i, i + 1 < chunks.length → (decodeBase64 (chunks.getD i [])).length = 12288 := by
  have hlp : looksLikePcm16 b = true := by
    simp only [looksLikePcm16, Bool.and_eq_true, decide_eq_true_eq]
    omega
  have hne : ¬ b.length = 0 := by omega
  have hsub : ∀ c ∈ chunkBuffer b 12288, ∀ x ∈ c, x < 256 := by
    intro c hc x hx
    rw [chunkBuffer, if_neg hne] at hc
    exact hbytes x (chunksGo_subset 12288 b c hc x hx)
  refine ⟨(chunkBuffer b 12288).map encodeBase64, ?_, ?_, ?_⟩
  · rw [toBase64PcmChunks, if_pos hlp]
  · rw [List.map_map]
    have heq : (chunkBuffer b 12288).map (decodeBase64 ∘ encodeBase64)
        = (chunkBuffer b 12288).map id :=
      List.map_congr_left (fun c hc => decodeBase64_encodeBase64 c (hsub c hc))
    rw [heq, List.map_id, chunkBuffer, if_neg hne]
    exact chunksGo_join 12288 (by norm_num) b
  · intro i hi
    rw [List.length_map] at hi
    rw [getD_map_encodeBase64]
    have hmem : (chunkBuffer b 12288).getD i [] ∈ chunkBuffer b 12288 := by
      rw [List.getD_eq_getElem _ _ (by omega)]
      exact List.getElem_mem (by omega)
    rw [decodeBase64_encodeBase64 _ (hsub _ hmem)]
    rw [chunkBuffer, if_neg hne] at hi ⊢
    exact chunksGo_getD_length 12288 (by norm_num) b i hi

/-- Witness for C2 at the concrete buffer `[1, 2]`. -/
theorem c2_toBase64PcmChunks_roundtrip_witness :
    (0 < ([1, 2] : List Nat).length) ∧ (([1, 2] : List Nat).length % 2 = 0) ∧
    (∃ chunks : List (List Char),
      toBase64PcmChunks [1, 2] 12288 = Except.ok chunks ∧
      (chunks.map decodeBase64).flatten = [1, 2] ∧
      ∀ i, i + 1 < chunks.length → (decodeBase64 (chunks.getD i [])).length = 12288) :=
  ⟨by decide, by decide,
    c2_toBase64PcmChunks_roundtrip [1, 2] (by decide) (by decide) (by decide)⟩

/-- Counterexample for C7: on the empty buffer, `toBase64PcmChunks` does not
return the empty list; it fails with the invalid-PCM16 error, because the
alignment guard (length at least 2) runs before the chunking loop. -/
theorem c7_empty_buffer_counterexample :
    toBase64PcmChunks [] 12288 = Except.error "Invalid PCM16 buffer." ∧
    ¬ toBase64PcmChunks [] 12288 = Except.ok [] := by
  constructor
  · rfl
  · intro h
    simp [toBase64PcmChunks, looksLikePcm16] at h

/-- Claim C7 (amended): `chunkBuffer` returns the empty list on an empty
buffer, but `toBase64PcmChunks` fails with `InvalidAudio` there; on a
non-empty buffer whose length is below 2 or odd it fails with `InvalidAudio`;
and it never fails on a buffer satisfying the PCM16 alignment precondition
(length at least 2 and even). -/
theorem c7_toBase64PcmChunks_validation (size : Nat) :
    chunkBuffer [] size = [] ∧
    toBase64PcmChunks [] 12288 = Except.error "Invalid PCM16 buffer." ∧
    (∀ b : List Nat, b ≠ [] → b.length < 2 ∨ b.length % 2 ≠ 0 →
      toBase64PcmChunks b 12288 = Except.error "Invalid PCM16 buffer.") ∧
    (∀ b : List Nat, 2 ≤ b.length → b.length % 2 = 0 →
      toBase64PcmChunks b 12288
        = Except.ok ((chunkBuffer b 12288).map encodeBase64)) := by
  refine ⟨rfl, rfl, ?_, ?_⟩
  · intro b hne hbad
    have hlp : ¬ looksLikePcm16 b = true := by
      simp only [looksLikePcm16, Bool.and_eq_true, decide_eq_true_eq]
      omega
    rw [toBase64PcmChunks, if_neg hlp]
  · intro b h2 hev
    have hlp : looksLikePcm16 b = true := by
      simp only [looksLikePcm16, Bool.and_eq_true, decide_eq_true_eq]
      omega
    rw [toBase64PcmChunks, if_pos hlp]

/-- Witness for the amended C7 at concrete buffers `[7]` (odd length,
rejected) and `[1, 2]` (aligned, accepted). -/
theorem c7_toBase64PcmChunks_validation_witness :
    (([7] : List Nat) ≠ [] ∧ ([7] : List Nat).length < 2 ∨ ([7] : List Nat).length % 2 ≠ 0) ∧
    toBase64PcmChunks [7] 12288 = Except.error "Invalid PCM16 buffer." ∧
    toBase64PcmChunks [1, 2] 12288
      = Except.ok ((chunkBuffer [1, 2] 12288).map encodeBase64) :=
  ⟨by decide,
   (c7_toBase64PcmChunks_validation 12288).2.2.1 [7] (by decide) (by decide),
   (c7_toBase64PcmChunks_validation 12288).2.2.2 [1, 2] (by decide) (by decide)⟩

/-- A dispatch inside the spacing window is skipped without touching state
or retrieval. -/
theorem handleToolCall_rateLimited (st : ToolState) (now : Nat) (name : String)
    (args : ToolArgs) (raw : List Snippet)
    (h : now - st.lastToolAt < minToolIntervalMs) :
    handleToolCall st now name args raw = (st, rateLimitedOutput, false) := by
  rw [handleToolCall, if_pos h]

/-- A dispatch that passes the spacing check records `lastToolAt = now`,
whatever branch it then takes. -/
theorem handleToolCall_lastToolAt (st : ToolState) (now : Nat) (name : String)
    (args : ToolArgs) (raw : List Snippet)
    (h : ¬ (now - st.lastToolAt < minToolIntervalMs)) :
    (handleToolCall st now name args raw).1.lastToolAt = now := by
  rw [handleToolCall, if_neg h]
  repeat' split
  all_goals rfl

/-- Claim C3 (amended): for two consecutive `rag_search` dispatches in one
session at times `t1 < t2`, where the first passes the spacing check,
either `t2 - t1 ≥ 1200` or the second emits `tool.output` with
`skipped:true` and reason `rate_limited` without executing retrieval; and a
dispatch that passes the spacing check records `last_tool_at = now`. -/
theorem c3_toolCall_spacing (st : ToolState) (t1 t2 : Nat) (n1 n2 : String)
    (a1 a2 : ToolArgs) (r1 r2 : List Snippet)
    (hpass : minToolIntervalMs ≤ t1 - st.lastToolAt) (hlt : t1 < t2) :
    (handleToolCall st t1 n1 a1 r1).1.lastToolAt = t1 ∧
    (minToolIntervalMs ≤ t2 - t1 ∨
      ((handleToolCall (handleToolCall st t1 n1 a1 r1).1 t2 n2 a2 r2).2.1
          = rateLimitedOutput ∧
       (handleToolCall (handleToolCall st t1 n1 a1 r1).1 t2 n2 a2 r2).2.2
          = false)) := by
  have h1 : ¬ (t1 - st.lastToolAt < minToolIntervalMs) := by omega
  have hrec := handleToolCall_lastToolAt st t1 n1 a1 r1 h1
  refine ⟨hrec, ?_⟩
  by_cases h2 : minToolIntervalMs ≤ t2 - t1
  · exact Or.inl h2
  · refine Or.inr ?_
    have h3 : t2 - (handleToolCall st t1 n1 a1 r1).1.lastToolAt
        < minToolIntervalMs := by
      rw [hrec]
      omega
    rw [handleToolCall_rateLimited _ _ _ _ _ h3]
    exact ⟨rfl, rfl⟩

/-- Witness for C3 with two dispatches 500 ms apart. -/
theorem c3_toolCall_spacing_witness :
    minToolIntervalMs ≤ 1200 - (ToolState.mk 0 0).lastToolAt ∧ 1200 < 1700 ∧
    ((handleToolCall ⟨0, 0⟩ 1200 "rag_search" ⟨some "q", none, none, none⟩ []).1.lastToolAt
        = 1200 ∧
     (minToolIntervalMs ≤ 1700 - 1200 ∨
       ((handleToolCall
           (handleToolCall ⟨0, 0⟩ 1200 "rag_search" ⟨some "q", none, none, none⟩ []).1
           1700 "rag_search" ⟨some "q", none, none, none⟩ []).2.1 = rateLimitedOutput ∧
        (handleToolCall
           (handleToolCall ⟨0, 0⟩ 1200 "rag_search" ⟨some "q", none, none, none⟩ []).1
           1700 "rag_search" ⟨some "q", none, none, none⟩ []).2.2 = false))) :=
  ⟨by decide, by decide,
    c3_toolCall_spacing ⟨0, 0⟩ 1200 1700 "rag_search" "rag_search"
      ⟨some "q", none, none, none⟩ ⟨some "q", none, none, none⟩ [] []
      (by decide) (by decide)⟩

/-- Claim C9: a dispatch rejected with `unknown tool` or `empty query` still
records `last_tool_at` (the spacing check and timestamp update precede the
tool-name and query validation), so any dispatch in the same session within
the next 1200 ms is answered with `skipped:true` even though the rejected
call executed no retrieval. -/
theorem c9_rejected_dispatch_still_rate_limits (st : ToolState) (t1 t2 : Nat)
    (n1 n2 : String) (a1 a2 : ToolArgs) (r1 r2 : List Snippet)
    (hpass : minToolIntervalMs ≤ t1 - st.lastToolAt)
    (hrej : n1 ≠ "rag_search" ∨ jsTrim (a1.query.getD "") = "")
    (hnear : t2 - t1 < minToolIntervalMs) :
    ((handleToolCall st t1 n1 a1 r1).2.1 = unknownToolOutput ∨
     (handleToolCall st t1 n1 a1 r1).2.1 = emptyQueryOutput) ∧
    (handleToolCall st t1 n1 a1 r1).2.2 = false ∧
    (handleToolCall st t1 n1 a1 r1).1.lastToolAt = t1 ∧
    (handleToolCall (handleToolCall st t1 n1 a1 r1).1 t2 n2 a2 r2).2.1
      = rateLimitedOutput ∧
    (handleToolCall (handleToolCall st t1 n1 a1 r1).1 t2 n2 a2 r2).2.2
      = false := by
  have h1 : ¬ (t1 - st.lastToolAt < minToolIntervalMs) := by omega
  have hrec := handleToolCall_lastToolAt st t1 n1 a1 r1 h1
  have hfirst : (handleToolCall st t1 n1 a1 r1).2.1 = unknownToolOutput ∨
      (handleToolCall st t1 n1 a1 r1).2.1 = emptyQueryOutput := by
    rcases hrej with hrej | hrej
    · left
      rw [handleToolCall, if_neg h1, if_pos hrej]
    · by_cases hn : n1 ≠ "rag_search"
      · left
        rw [handleToolCall, if_neg h1, if_pos hn]
      · right
        rw [handleToolCall, if_neg h1, if_neg hn, if_pos hrej]
  have hflag : (handleToolCall st t1 n1 a1 r1).2.2 = false := by
    rcases hrej with hrej | hrej
    · rw [handleToolCall, if_neg h1, if_pos hrej]
    · by_cases hn : n1 ≠ "rag_search"
      · rw [handleToolCall, if_neg h1, if_pos hn]
      · rw [handleToolCall, if_neg h1, if_neg hn, if_pos hrej]
  have h3 : t2 - (handleToolCall st t1 n1 a1 r1).1.lastToolAt
      < minToolIntervalMs := by
    rw [hrec]
    omega
  rw [handleToolCall_rateLimited _ _ _ _ _ h3]
  exact ⟨hfirst, hflag, hrec, rfl, rfl⟩

/-- Witness for C9: an unknown-tool dispatch at 1200 ms followed by a
dispatch at 1700 ms. -/
theorem c9_rejected_dispatch_still_rate_limits_witness :
    minToolIntervalMs ≤ 1200 - (ToolState.mk 0 0).lastToolAt ∧
    (("other" : String) ≠ "rag_search" ∨
      jsTrim ((ToolArgs.mk (some "q") none none none).query.getD "") = "") ∧
    1700 - 1200 < minToolIntervalMs ∧
    ((handleToolCall ⟨0, 0⟩ 1200 "other" ⟨some "q", none, none, none⟩ []).2.1
        = unknownToolOutput ∨
     (handleToolCall ⟨0, 0⟩ 1200 "other" ⟨some "q", none, none, none⟩ []).2.1
        = emptyQueryOutput) ∧
    (handleToolCall
        (handleToolCall ⟨0, 0⟩ 1200 "other" ⟨some "q", none, none, none⟩ []).1
        1700 "rag_search" ⟨some "q", none, none, none⟩ []).2.1
      = rateLimitedOutput := by
  have h := c9_rejected_dispatch_still_rate_limits ⟨0, 0⟩ 1200 1700 "other"
    "rag_search" ⟨some "q", none, none, none⟩ ⟨some "q", none, none, none⟩ [] []
    (by decide) (Or.inl (by decide)) (by decide)
  exact ⟨by decide, Or.inl (by decide), by decide, h.1, h.2.2.2.1⟩

/-- Membership is preserved by a descending insertion. -/
theorem mem_insertDesc (x y : Snippet) (l : List Snippet) :
    y ∈ insertDesc x l ↔ y = x ∨ y ∈ l := by
  induction l with
  | nil => simp [insertDesc]
  | cons z zs ih =>
      rw [insertDesc]
      split
      · simp [List.mem_cons]
      · simp only [List.mem_cons, ih]
        tauto

/-- Sorting by score preserves membership. -/
theorem mem_sortByScoreDesc (y : Snippet) (l : List Snippet) :
    y ∈ sortByScoreDesc l ↔ y ∈ l := by
  induction l with
  | nil => simp [sortByScoreDesc]
  | cons z zs ih =>
      have hstep : sortByScoreDesc (z :: zs) = insertDesc z (sortByScoreDesc zs) := rfl
      rw [hstep, mem_insertDesc]
      simp only [List.mem_cons, ih]

/-- Every snippet returned by `searchVectorDB` scored at least the threshold
it was filtered with. -/
theorem searchVectorDB_score (raw : List Snippet) (threshold : ℚ) :
    ∀ r ∈ searchVectorDB raw threshold, threshold ≤ r.score := by
  intro r hr
  rw [searchVectorDB, mem_sortByScoreDesc] at hr
  exact of_decide_eq_true (List.mem_filter.mp hr).2

/-- In both provisional and final mode the threshold handed to
`searchVectorDB` is at least the threshold of the low-confidence test. -/
theorem le_effectiveThreshold (args : ToolArgs) :
    toolThreshold args ≤ effectiveThreshold args := by
  rw [effectiveThreshold]
  split
  · exact le_max_left _ _
  · exact le_rfl

/-- The low-confidence test succeeds exactly when retrieval returned no
snippet: the post-filter keeps only scores at or above the effective
threshold, which dominates the comparison threshold. -/
theorem isLowConfidence_iff_empty (args : ToolArgs) (raw : List Snippet) :
    isLowConfidence args raw ↔ toolResults args raw = [] := by
  unfold isLowConfidence
  constructor
  · rintro (h | h)
    · exact List.length_eq_zero.mp h
    · cases hres : toolResults args raw with
      | nil => rfl
      | cons r rest =>
          exfalso
          have hmem : r ∈ toolResults args raw := by
            rw [hres]
            exact List.mem_cons_self r rest
          have hsc : effectiveThreshold args ≤ r.score :=
            searchVectorDB_score raw (effectiveThreshold args) r hmem
          have hth : toolThreshold args ≤ r.score :=
            le_trans (le_effectiveThreshold args) hsc
          rw [hres] at h
          exact absurd h (not_lt.mpr hth)
  · intro h
    left
    rw [h]
    rfl

/-- A passing, validated, low-confidence dispatch: counter incremented, the
low-confidence payload emitted, escalation from the third consecutive hit. -/
theorem handleToolCall_lowConf (st : ToolState) (now : Nat) (args : ToolArgs)
    (raw : List Snippet)
    (hpass : ¬ (now - st.lastToolAt < minToolIntervalMs))
    (hq : ¬ (jsTrim (args.query.getD "") = ""))
    (hlc : isLowConfidence args raw) :
    handleToolCall st now "rag_search" args raw
      = (⟨now, st.lowConfidenceCount + 1⟩,
         lowConfOutput
           (if 3 ≤ st.lowConfidenceCount + 1 then lowConfEscalationMessage
            else lowConfRetryMessage)
           (toolMode args) (st.lowConfidenceCount + 1),
         true) := by
  rw [handleToolCall, if_neg hpass, if_neg (by simp), if_neg hq, if_pos hlc]

/-- A passing, validated, confident dispatch: counter reset, the formatted
context emitted. -/
theorem handleToolCall_confident (st : ToolState) (now : Nat) (args : ToolArgs)
    (raw : List Snippet)
    (hpass : ¬ (now - st.lastToolAt < minToolIntervalMs))
    (hq : ¬ (jsTrim (args.query.getD "") = ""))
    (hlc : ¬ isLowConfidence args raw) :
    handleToolCall st now "rag_search" args raw
      = (⟨now, 0⟩,
         successOutput (formatContextForLLM (toolResults args raw))
           ((toolResults args raw).map sourceName) (toolResults args raw).length
           (toolMode args),
         true) := by
  rw [handleToolCall, if_neg hpass, if_neg (by simp), if_neg hq, if_neg hlc]

/-- Claim C4: a low-confidence retrieval increments the low-confidence
counter of the session and emits `tool.output` with `lowConfidence:true`
and `lowConfidenceCount` equal to the new count; after three consecutive
low-confidence results the fourth low-confidence `tool.output` carries the
escalation message advising to contact a human operator; any confident
result resets the counter to 0. -/
theorem c4_lowConfidence_policy (st : ToolState) (now : Nat) (args : ToolArgs)
    (raw : List Snippet)
    (hpass : ¬ (now - st.lastToolAt < minToolIntervalMs))
    (hq : ¬ (jsTrim (args.query.getD "") = "")) :
    (isLowConfidence args raw →
      handleToolCall st now "rag_search" args raw
        = (⟨now, st.lowConfidenceCount + 1⟩,
           lowConfOutput
             (if 3 ≤ st.lowConfidenceCount + 1 then lowConfEscalationMessage
              else lowConfRetryMessage)
             (toolMode args) (st.lowConfidenceCount + 1),
           true)) ∧
    (¬ isLowConfidence args raw →
      (handleToolCall st now "rag_search" args raw).1.lowConfidenceCount = 0) ∧
    (st.lowConfidenceCount = 0 → isLowConfidence args raw →
      (runToolCalls st
        [(now, "rag_search", args, raw),
         (now + minToolIntervalMs, "rag_search", args, raw),
         (now + 2 * minToolIntervalMs, "rag_search", args, raw),
         (now + 3 * minToolIntervalMs, "rag_search", args, raw)]).2.map
          (fun p => (p.1.lowConfidence, p.1.lowConfidenceCount, p.1.context))
        = [(true, some 1, some lowConfRetryMessage),
           (true, some 2, some lowConfRetryMessage),
           (true, some 3, some lowConfEscalationMessage),
           (true, some 4, some lowConfEscalationMessage)]) := by
  refine ⟨handleToolCall_lowConf st now args raw hpass hq, ?_, ?_⟩
  · intro hlc
    rw [handleToolCall_confident st now args raw hpass hq hlc]
  · intro h0 hlc
    have e1 : handleToolCall st now "rag_search" args raw
        = (⟨now, 1⟩, lowConfOutput lowConfRetryMessage (toolMode args) 1, true) := by
      rw [handleToolCall_lowConf st now args raw hpass hq hlc, h0]
      norm_num
    have e2 : handleToolCall ⟨now, 1⟩ (now + minToolIntervalMs) "rag_search" args raw
        = (⟨now + minToolIntervalMs, 2⟩,
           lowConfOutput lowConfRetryMessage (toolMode args) 2, true) := by
      rw [handleToolCall_lowConf ⟨now, 1⟩ (now + minToolIntervalMs) args raw
        (by simp only [minToolIntervalMs]; omega) hq hlc]
      norm_num
    have e3 : handleToolCall ⟨now + minToolIntervalMs, 2⟩
        (now + 2 * minToolIntervalMs) "rag_search" args raw
        = (⟨now + 2 * minToolIntervalMs, 3⟩,
           lowConfOutput lowConfEscalationMessage (toolMode args) 3, true) := by
      rw [handleToolCall_lowConf ⟨now + minToolIntervalMs, 2⟩
        (now + 2 * minToolIntervalMs) args raw
        (by simp only [minToolIntervalMs]; omega) hq hlc]
      norm_num
    have e4 : handleToolCall ⟨now + 2 * minToolIntervalMs, 3⟩
        (now + 3 * minToolIntervalMs) "rag_search" args raw
        = (⟨now + 3 * minToolIntervalMs, 4⟩,
           lowConfOutput lowConfEscalationMessage (toolMode args) 4, true) := by
      rw [handleToolCall_lowConf ⟨now + 2 * minToolIntervalMs, 3⟩
        (now + 3 * minToolIntervalMs) args raw
        (by simp only [minToolIntervalMs]; omega) hq hlc]
      norm_num
    simp only [runToolCalls, e1, e2, e3, e4, List.map_cons, List.map_nil,
      lowConfOutput]

/-- Witness for C4 at a concrete session: empty oracle results, four
dispatches 1200 ms apart. -/
theorem c4_lowConfidence_policy_witness :
    (¬ (1200 - (ToolState.mk 0 0).lastToolAt < minToolIntervalMs)) ∧
    (¬ (jsTrim ((ToolArgs.mk (some "질문") none none none).query.getD "") = "")) ∧
    (isLowConfidence ⟨some "질문", none, none, none⟩ [] →
      handleToolCall ⟨0, 0⟩ 1200 "rag_search" ⟨some "질문", none, none, none⟩ []
        = (⟨1200, 0 + 1⟩,
           lowConfOutput
             (if 3 ≤ 0 + 1 then lowConfEscalationMessage else lowConfRetryMessage)
             (toolMode ⟨some "질문", none, none, none⟩) (0 + 1),
           true)) := by
  have h := c4_lowConfidence_policy ⟨0, 0⟩ 1200 ⟨some "질문", none, none, none⟩ []
    (by decide) (by decide)
  exact ⟨by decide, by decide, h.1⟩

/-- Claim C10: a validated `rag_search` dispatch that reaches retrieval
emits `lowConfidence:true` exactly when `searchVectorDB` returned the empty
list — with a non-empty result list the top-score-below-threshold branch is
unreachable, because the post-filter keeps only scores at or above the
effective threshold, which in both provisional and final mode dominates the
comparison threshold. -/
theorem c10_lowConfidence_iff_noResults (st : ToolState) (now : Nat)
    (args : ToolArgs) (raw : List Snippet)
    (hpass : ¬ (now - st.lastToolAt < minToolIntervalMs))
    (hq : ¬ (jsTrim (args.query.getD "") = "")) :
    (handleToolCall st now "rag_search" args raw).2.1.lowConfidence = true
      ↔ toolResults args raw = [] := by
  by_cases hlc : isLowConfidence args raw
  · rw [handleToolCall_lowConf st now args raw hpass hq hlc]
    simpa [lowConfOutput] using (isLowConfidence_iff_empty args raw).mp hlc
  · rw [handleToolCall_confident st now args raw hpass hq hlc]
    simp only [successOutput]
    constructor
    · intro hcontra
      exact absurd hcontra (by simp)
    · intro hempty
      exact absurd ((isLowConfidence_iff_empty args raw).mpr hempty) hlc

/-- Witness for C10 at a concrete dispatch with an empty oracle. -/
theorem c10_lowConfidence_iff_noResults_witness :
    ((handleToolCall ⟨0, 0⟩ 1200 "rag_search" ⟨some "q", none, none, none⟩ []).2.1.lowConfidence
        = true
      ↔ toolResults ⟨some "q", none, none, none⟩ [] = []) :=
  c10_lowConfidence_iff_noResults ⟨0, 0⟩ 1200 ⟨some "q", none, none, none⟩ []
    (by decide) (by decide)

/-- Counterexample for C3: consecutive dispatches at 2000 ms and 2500 ms —
500 ms apart — where the dispatch at 2000 ms was itself rate-limited (an
earlier dispatch at 1200 ms holds `last_tool_at`); the dispatch at 2500 ms
executes (no `skipped:true`), because spacing is measured from the last
recorded dispatch, and a skipped dispatch does not record `last_tool_at`. -/
theorem c3_counterexample :
    2500 - 2000 < 1200 ∧
    (runToolCalls ⟨0, 0⟩
        [(1200, "rag_search", ⟨some "q", none, none, none⟩, []),
         (2000, "rag_search", ⟨some "q", none, none, none⟩, []),
         (2500, "rag_search", ⟨some "q", none, none, none⟩, [])]).2.map
        (fun p => p.1.skipped) = [false, true, false] := by
  have hq : ¬ (jsTrim ((ToolArgs.mk (some "q") none none none).query.getD "")
      = "") := by decide
  have hlc : isLowConfidence ⟨some "q", none, none, none⟩ [] := Or.inl rfl
  have e1 : handleToolCall ⟨0, 0⟩ 1200 "rag_search"
      ⟨some "q", none, none, none⟩ []
      = (⟨1200, 1⟩,
         lowConfOutput lowConfRetryMessage
           (toolMode ⟨some "q", none, none, none⟩) 1, true) := by
    rw [handleToolCall_lowConf ⟨0, 0⟩ 1200 ⟨some "q", none, none, none⟩ []
      (by decide) hq hlc]
    norm_num
  have e2 : handleToolCall ⟨1200, 1⟩ 2000 "rag_search"
      ⟨some "q", none, none, none⟩ []
      = (⟨1200, 1⟩, rateLimitedOutput, false) :=
    handleToolCall_rateLimited ⟨1200, 1⟩ 2000 "rag_search"
      ⟨some "q", none, none, none⟩ [] (by decide)
  have e3 : handleToolCall ⟨1200, 1⟩ 2500 "rag_search"
      ⟨some "q", none, none, none⟩ []
      = (⟨2500, 2⟩,
         lowConfOutput lowConfRetryMessage
           (toolMode ⟨some "q", none, none, none⟩) 2, true) := by
    rw [handleToolCall_lowConf ⟨1200, 1⟩ 2500 ⟨some "q", none, none, none⟩ []
      (by decide) hq hlc]
    norm_num
  refine ⟨by norm_num, ?_⟩
  simp only [runToolCalls, e1, e2, e3, List.map_cons, List.map_nil,
    lowConfOutput, rateLimitedOutput]

/-- Counterexample for C5: when the stored hash already equals the hash of
the submitted instructions — exactly the state `createRealtimeSession`
leaves behind for the base instructions — calling
`maybeUpdateInstructions` twice with that same string emits zero
`session.update` frames, not exactly one. -/
theorem c5_counterexample :
    (maybeUpdateInstructionsTwice (some (jsHash [65])) [65]).2.length = 0 ∧
    ¬ (maybeUpdateInstructionsTwice (some (jsHash [65])) [65]).2.length = 1 := by
  have e : maybeUpdateInstructions (some (jsHash [65])) [65]
      = (some (jsHash [65]), []) := by
    rw [maybeUpdateInstructions, if_pos rfl]
  refine ⟨?_, ?_⟩ <;> simp [maybeUpdateInstructionsTwice, e]

/-- Claim C5 (amended): calling `maybeUpdateInstructions` twice in a row
with the same instruction string emits at most one `session.update` frame:
exactly one — emitted by the first call, which records the new hash, the
second call being a no-op on the unchanged hash — when the stored hash
differs from the hash of the string, and none when it already matches. -/
theorem c5_maybeUpdateInstructions_twice (lastInstrHash : Option String)
    (x : List Nat) :
    (lastInstrHash ≠ some (jsHash x) →
      (maybeUpdateInstructionsTwice lastInstrHash x).2
        = [UpstreamFrame.sessionUpdate x] ∧
      (maybeUpdateInstructionsTwice lastInstrHash x).1 = some (jsHash x)) ∧
    (lastInstrHash = some (jsHash x) →
      (maybeUpdateInstructionsTwice lastInstrHash x).2 = []) := by
  constructor
  · intro hne
    have e1 : maybeUpdateInstructions lastInstrHash x
        = (some (jsHash x), [UpstreamFrame.sessionUpdate x]) := by
      rw [maybeUpdateInstructions, if_neg hne]
    have e2 : maybeUpdateInstructions (some (jsHash x)) x
        = (some (jsHash x), []) := by
      rw [maybeUpdateInstructions, if_pos rfl]
    simp [maybeUpdateInstructionsTwice, e1, e2]
  · intro heq
    have e1 : maybeUpdateInstructions lastInstrHash x = (lastInstrHash, []) := by
      rw [maybeUpdateInstructions, if_pos heq]
    have e2 : maybeUpdateInstructions (some (jsHash x)) x
        = (some (jsHash x), []) := by
      rw [maybeUpdateInstructions, if_pos rfl]
    simp [maybeUpdateInstructionsTwice, e1, e2, heq]

/-- Witness for the amended C5 starting from a fresh meta entry. -/
theorem c5_maybeUpdateInstructions_twice_witness :
    (none ≠ some (jsHash [65])) ∧
    (maybeUpdateInstructionsTwice none [65]).2
      = [UpstreamFrame.sessionUpdate [65]] :=
  ⟨by simp,
   ((c5_maybeUpdateInstructions_twice none [65]).1 (by simp)).1⟩

/-- Counterexample for C1: the `closed` (and `error`) forwarders do not
filter by session-id — a forwarder registered for session `sonj_a` delivers
an envelope derived from a `closed` event of session `sonj_b`. -/
theorem c1_counterexample :
    deliver "sonj_a" (LlmEvent.closed "sonj_b" (some 1011) (some "bye"))
      = some (Envelope.errorEnvelope 1011 "bye") ∧
    (LlmEvent.closed "sonj_b" (some 1011) (some "bye")).sid ≠ "sonj_a" := by
  exact ⟨rfl, by decide⟩

/-- Claim C1 (amended): the six `fwd`-built forwarders (text, audio and
transcript streams) deliver to the client only events whose session-id
matches the registration; the `error` and `closed` handlers deliver an
error envelope regardless of the session-id of the event. -/
theorem c1_fanout_filtering (sid : String) (e : LlmEvent) :
    (e.isErrOrClosed = false →
      ∀ env, deliver sid e = some env → e.sid = sid) ∧
    (e.isErrOrClosed = true → (deliver sid e).isSome = true) := by
  constructor
  · intro hne env hdel
    cases e <;> simp only [LlmEvent.isErrOrClosed] at hne <;>
      simp only [deliver] at hdel <;>
      first
      | (split at hdel
         · rename_i hcond
           exact hcond
         · cases hdel)
      | cases hne
  · intro he
    cases e <;> simp only [LlmEvent.isErrOrClosed] at he <;>
      first
      | rfl
      | cases he

/-- Witness for the amended C1: a matching `text_delta` is delivered with
its session-id equal to the registration, and a foreign `closed` event is
delivered regardless. -/
theorem c1_fanout_filtering_witness :
    (LlmEvent.text_delta "s" 0 "d").isErrOrClosed = false ∧
    (LlmEvent.text_delta "s" 0 "d").sid = "s" ∧
    (deliver "s" (LlmEvent.closed "s2" none none)).isSome = true :=
  ⟨rfl,
   (c1_fanout_filtering "s" (LlmEvent.text_delta "s" 0 "d")).1 rfl
     (Envelope.conversation "response.text.delta" 0 (some "d")) (by rfl),
   (c1_fanout_filtering "s" (LlmEvent.closed "s2" none none)).2 rfl⟩

/-- Counterexample for C6: a 24,577-byte binary frame has odd length, so
`looksLikePcm16` rejects it; the handler answers with the 400 error
envelope and forwards zero `input_audio_buffer.append` frames — the
upstream sees only the commit and `response.create` from the subsequent
`input_audio_buffer.end`. -/
theorem c6_counterexample :
    handleBinaryFrame (List.replicate 24577 0)
      = Except.error (Envelope.errorEnvelope 400
          ("Invalid binary audio: " ++ "Invalid PCM16 buffer.")) ∧
    countAppends (audioTurnUpstreamFrames (List.replicate 24577 0)) = 0 ∧
    audioTurnUpstreamFrames (List.replicate 24577 0)
      = [UpstreamFrame.inputAudioCommit,
         UpstreamFrame.responseCreate ["text", "audio"]] := by
  have hlp : looksLikePcm16 (List.replicate 24577 (0 : Nat)) = false := by
    rw [looksLikePcm16, List.length_replicate]
    rfl
  have hbin : handleBinaryFrame (List.replicate 24577 0)
      = Except.error (Envelope.errorEnvelope 400
          ("Invalid binary audio: " ++ "Invalid PCM16 buffer.")) := by
    rw [handleBinaryFrame, toBase64PcmChunks, hlp]
    rfl
  have hA : audioTurnUpstreamFrames (List.replicate 24577 0)
      = [UpstreamFrame.inputAudioCommit,
         UpstreamFrame.responseCreate ["text", "audio"]] := by
    rw [audioTurnUpstreamFrames, hbin]
    rfl
  refine ⟨hbin, ?_, hA⟩
  rw [hA]
  rfl

/-- Claim C6 (amended): a 24,577-byte frame is odd and rejected, so the
scenario needs an even frame; when the client sends a 24,578-byte binary
frame and then `input_audio_buffer.end`, the upstream receives exactly
three `input_audio_buffer.append` frames carrying the independently
base64-encoded 12,288-byte, 12,288-byte and 2-byte chunks, then one
`input_audio_buffer.commit`, then one `response.create` with modalities
`["text", "audio"]`. -/
theorem c6_audio_turn (b : List Nat) (hlen : b.length = 24578) :
    audioTurnUpstreamFrames b
      = [UpstreamFrame.inputAudioAppend (encodeBase64 (b.take 12288)),
         UpstreamFrame.inputAudioAppend (encodeBase64 ((b.drop 12288).take 12288)),
         UpstreamFrame.inputAudioAppend (encodeBase64 ((b.drop 12288).drop 12288)),
         UpstreamFrame.inputAudioCommit,
         UpstreamFrame.responseCreate ["text", "audio"]] ∧
    (b.take 12288).length = 12288 ∧
    ((b.drop 12288).take 12288).length = 12288 ∧
    ((b.drop 12288).drop 12288).length = 2 := by
  have h1 : ¬ ((12288 : Nat) = 0 ∨ b.length = 0) := by omega
  have h2 : ¬ ((12288 : Nat) = 0 ∨ (b.drop 12288).length = 0) := by
    simp only [List.length_drop]
    omega
  have h3 : ¬ ((12288 : Nat) = 0 ∨ ((b.drop 12288).drop 12288).length = 0) := by
    simp only [List.length_drop]
    omega
  have h4 : (12288 : Nat) = 0 ∨ (((b.drop 12288).drop 12288).drop 12288).length = 0 := by
    right
    simp only [List.length_drop]
    omega
  have htake : ((b.drop 12288).drop 12288).take 12288 = (b.drop 12288).drop 12288 :=
    List.take_of_length_le (by simp only [List.length_drop]; omega)
  have hch : chunksGo 12288 b
      = [b.take 12288, (b.drop 12288).take 12288, (b.drop 12288).drop 12288] := by
    rw [chunksGo, dif_neg h1, chunksGo, dif_neg h2, chunksGo, dif_neg h3,
      chunksGo, dif_pos h4, htake]
  have hlp : looksLikePcm16 b = true := by
    simp only [looksLikePcm16, Bool.and_eq_true, decide_eq_true_eq]
    omega
  have hbin : handleBinaryFrame b
      = Except.ok
          [UpstreamFrame.inputAudioAppend (encodeBase64 (b.take 12288)),
           UpstreamFrame.inputAudioAppend (encodeBase64 ((b.drop 12288).take 12288)),
           UpstreamFrame.inputAudioAppend (encodeBase64 ((b.drop 12288).drop 12288))] := by
    rw [handleBinaryFrame, toBase64PcmChunks, if_pos hlp, chunkBuffer,
      if_neg (by omega), hch]
    rfl
  refine ⟨?_, ?_, ?_, ?_⟩
  · simp [audioTurnUpstreamFrames, hbin, handleAudioEnd]
  · simp only [List.length_take]
    omega
  · simp only [List.length_take, List.length_drop]
    omega
  · simp only [List.length_drop]
    omega

/-- Witness for the amended C6 at the concrete 24,578-byte zero frame. -/
theorem c6_audio_turn_witness :
    (List.replicate 24578 (0 : Nat)).length = 24578 ∧
    audioTurnUpstreamFrames (List.replicate 24578 0)
      = [UpstreamFrame.inputAudioAppend
           (encodeBase64 ((List.replicate 24578 (0 : Nat)).take 12288)),
         UpstreamFrame.inputAudioAppend
           (encodeBase64 (((List.replicate 24578 (0 : Nat)).drop 12288).take 12288)),
         UpstreamFrame.inputAudioAppend
           (encodeBase64 (((List.replicate 24578 (0 : Nat)).drop 12288).drop 12288)),
         UpstreamFrame.inputAudioCommit,
         UpstreamFrame.responseCreate ["text", "audio"]] :=
  ⟨List.length_replicate 24578 0,
   (c6_audio_turn (List.replicate 24578 0) (List.length_replicate 24578 0)).1⟩

theorem lookupCall_none_setCall (calls : List (String × PendingCall))
    (c : String) (v : PendingCall) (h : lookupCall calls c = none) :
    setCall calls c v = calls ++ [(c, v)] := by
  induction calls with
  | nil => rfl
  | cons kv rest ih =>
      rw [lookupCall] at h
      rw [setCall]
      split at h
      · cases h
      · rename_i hk
        rw [if_neg hk, ih h]
        rfl

theorem setCall_append (calls : List (String × PendingCall)) (c : String)
    (v w : PendingCall) (h : lookupCall calls c = none) :
    setCall (calls ++ [(c, v)]) c w = calls ++ [(c, w)] := by
  induction calls with
  | nil => simp [setCall]
  | cons kv rest ih =>
      rw [lookupCall] at h
      split at h
      · cases h
      · rename_i hk
        rw [List.cons_append, setCall, if_neg hk, ih h, List.cons_append]

theorem lookupCall_append (calls : List (String × PendingCall)) (c : String)
    (v : PendingCall) (h : lookupCall calls c = none) :
    lookupCall (calls ++ [(c, v)]) c = some v := by
  induction calls with
  | nil => simp [lookupCall]
  | cons kv rest ih =>
      rw [lookupCall] at h
      split at h
      · cases h
      · rename_i hk
        rw [List.cons_append, lookupCall, if_neg hk, ih h]

theorem eraseCall_append (calls : List (String × PendingCall)) (c : String)
    (v : PendingCall) (h : lookupCall calls c = none) :
    eraseCall (calls ++ [(c, v)]) c = calls := by
  induction calls with
  | nil => simp [eraseCall]
  | cons kv rest ih =>
      rw [lookupCall] at h
      split at h
      · cases h
      · rename_i hk
        rw [List.cons_append, eraseCall, if_neg hk, ih h]

theorem runDeltas_acc (calls : List (String × PendingCall)) (c : String)
    (n : Option String) (h : lookupCall calls c = none) (acc : List Char)
    (ds : List (Option (List Char))) :
    runDeltas (calls ++ [(c, ⟨n, acc⟩)]) c n ds
      = calls ++ [(c, ⟨n, acc ++ deltaText ds⟩)] := by
  induction ds generalizing acc with
  | nil => simp [runDeltas, deltaText]
  | cons d ds ih =>
      rw [runDeltas, deltaStep, lookupCall_append calls c _ h]
      dsimp only [Option.getD_some]
      rw [setCall_append calls c _ _ h, ih (acc ++ d.getD [])]
      simp [deltaText, List.append_assoc]

/-- Claim C8: for a call-id with no pending entry, each
`function_call.arguments.delta` appends its delta (the first creating the
entry), so the accumulated text is the concatenation of all deltas in
arrival order; `function_call.arguments.done` then JSON-parses the
accumulation with empty or malformed text treated as the empty object,
removes the pending entry, and dispatches the tool with the parsed
arguments. -/
theorem c8_argument_coalescing {J : Type} (emptyObj : J)
    (parse : List Char → Option J) (calls : List (String × PendingCall))
    (callId : String) (name : Option String) (d : Option (List Char))
    (ds : List (Option (List Char)))
    (hfresh : lookupCall calls callId = none) :
    lookupCall (runDeltas calls callId name (d :: ds)) callId
      = some ⟨name, deltaText (d :: ds)⟩ ∧
    (doneStep emptyObj parse (runDeltas calls callId name (d :: ds)) callId).2
      = some (name, parseArgs emptyObj parse (deltaText (d :: ds))) ∧
    lookupCall
      (doneStep emptyObj parse (runDeltas calls callId name (d :: ds)) callId).1
      callId = none := by
  have hrun : runDeltas calls callId name (d :: ds)
      = calls ++ [(callId, ⟨name, deltaText (d :: ds)⟩)] := by
    rw [runDeltas, deltaStep, hfresh]
    dsimp only [Option.getD_none, List.nil_append]
    rw [lookupCall_none_setCall calls callId _ hfresh]
    rw [runDeltas_acc calls callId name hfresh]
    simp [deltaText]
  have hlook : lookupCall (runDeltas calls callId name (d :: ds)) callId
      = some ⟨name, deltaText (d :: ds)⟩ := by
    rw [hrun]
    exact lookupCall_append calls callId _ hfresh
  refine ⟨hlook, ?_, ?_⟩
  · rw [doneStep, hlook]
  · rw [doneStep, hlook]
    rw [hrun, eraseCall_append calls callId _ hfresh]
    exact hfresh

/-- Witness for C8: two deltas for call-id `c1` on an empty pending map,
parsed by a parser that fails (malformed → empty object). -/
theorem c8_argument_coalescing_witness :
    lookupCall ([] : List (String × PendingCall)) "c1" = none ∧
    (doneStep (0 : Nat) (fun _ => none)
        (runDeltas [] "c1" (some "rag_search")
          [some "ab".data, some "cd".data]) "c1").2
      = some (some "rag_search",
          parseArgs (0 : Nat) (fun _ => none)
            (deltaText [some "ab".data, some "cd".data])) :=
  ⟨rfl,
   (c8_argument_coalescing (0 : Nat) (fun _ => none) [] "c1"
     (some "rag_search") (some "ab".data) [some "cd".data] rfl).2.1⟩
